import Mathlib

/-!
Verification development for the scls-optimisation repository.

The embedded code comes from two files:
* lib/somewhere.hpp — the five `somewhere` strategies (`oracle`, `baseline`,
  `knowledge_free`, `replicated`, `fastest`), the generic `replicate`
  combinator, and the `netstate` data structure;
* lib/setup.hpp (with the batch.cpp and graphic.cpp drivers) — the `reporter`
  instrumentation, the MAIN round, and the driver parameter spaces.

Conventions of the embedding:
* C++ `size_t` is modelled as ℕ with explicit reduction modulo 2^64 wherever
  the code performs subtraction that can wrap (`usub`);
* `times_t` (a C++ floating-point time) is modelled as ℚ, and the `-INF`
  sentinel used by `netstate` as ⊥ in `WithBot ℚ`;
* fcpp tuples compare lexicographically (as std::tuple does), so the
  `fcpp::max` of `tuple<times_t, bool>` entries is `max` of the lexicographic
  linear order on `WithBot ℚ × Bool`;
* an fcpp `field` assigns a value to every device of the network (devices
  never materialised in the underlying map are read through the default
  slot), so a `field<T>` over an `n`-device network is modelled as a total
  function `Fin n → T`; a freshly constructed `netstate` maps every device
  to the default entry `(-INF, false)`.
-/

/-! ## size_t arithmetic -/

/-- The modulus of C++ 64-bit `size_t` arithmetic. -/
def SZ : ℕ := 2 ^ 64

/-- Unsigned 64-bit subtraction: the value of the C++ expression `a - b` at
`size_t` operands, i.e. `(a - b) mod 2^64` on mathematical integers. -/
def usub (a b : ℕ) : ℕ := (a % SZ + (SZ - b % SZ)) % SZ

theorem usub_of_le {a b : ℕ} (hba : b ≤ a) (ha : a < SZ) : usub a b = a - b := by
  have hb : b < SZ := lt_of_le_of_lt hba ha
  simp only [usub, SZ] at *
  omega

theorem usub_of_lt {a b : ℕ} (hab : a < b) (hb : b < SZ) : usub a b = SZ - (b - a) := by
  have ha : a < SZ := lt_trans hab hb
  simp only [usub, SZ] at *
  omega

/-! ## The netstate data structure (lib/somewhere.hpp, lines 82-121) -/

/-- Timestamps stored in a `netstate`: either a real time or the `-INF`
sentinel of the default constructor, modelled as `⊥`. -/
abbrev TS := WithBot ℚ

/-- A `netstate` entry `tuple<times_t, bool>`, with the lexicographic order
used by `std::max` on fcpp tuples. -/
abbrev TSB := Lex (TS × Bool)

/-- `field<tuple<times_t, bool>>` over an `n`-device network: the data member
of `netstate`. -/
abbrev NetState (n : ℕ) := Fin n → TSB

/-- The `netstate` default constructor: every device maps to `(-INF, false)`. -/
def netstateNew (n : ℕ) : NetState n := fun _ => toLex ((⊥ : TS), false)

/-- `netstate::max`: pointwise maximum (`fcpp::max` applies `max` per device). -/
def netstateMax {n : ℕ} (x y : NetState n) : NetState n := fun d => max (x d) (y d)

/-- `netstate::update`: overwrite the entry of device `i` with `(time, val)`. -/
def netstateUpdate {n : ℕ} (s : NetState n) (i : Fin n) (t : ℚ) (v : Bool) : NetState n :=
  Function.update s i (toLex ((t : TS), v))

/-- The loop body of `netstate::value`: scan the stored entries, returning
`true` at the first entry whose timestamp exceeds the threshold and whose
value is `true`, and `false` when the scan is exhausted. -/
def valueLoop (th : ℚ) : List TSB → Bool
  | [] => false
  | x :: rest =>
    if (th : TS) < (ofLex x).1 ∧ (ofLex x).2 = true then true else valueLoop th rest

/-- `netstate::value`: scan all entries of the field against the threshold. -/
def netstateValue {n : ℕ} (s : NetState n) (th : ℚ) : Bool :=
  valueLoop th ((List.finRange n).map s)

/-! ## The fastest strategy (lib/somewhere.hpp, lines 124-133) -/

/-- `fold_hood(CALL, netstate::max, n)`: fold the merge over the neighbour
field values.  The fold is seeded with the default `netstate`, which is the
neutral element of the merge, so on the (always nonempty) neighbourhood this
equals the plain fold of the C++ code. -/
def foldHoodMax {n : ℕ} (nbrs : List (NetState n)) : NetState n :=
  nbrs.foldr netstateMax (netstateNew n)

/-- One round of `somewhere::fastest::operator()` at a device: `nbrs` are the
`netstate` values received from the neighbourhood (own slot included, as in an
fcpp `nbr` field), `uid` the device id, `t` the current time, `f` the local
formula value.  Returns the boolean result paired with the state sent out. -/
def fastest {n : ℕ} (nbrs : List (NetState n)) (uid : Fin n) (t : ℚ) (f : Bool)
    (diameter infospeed : ℚ) : Bool × NetState n :=
  let s := netstateUpdate (foldHoodMax nbrs) uid t f
  (netstateValue s (t - diameter / infospeed), s)

theorem valueLoop_eq_true_iff (th : ℚ) (l : List TSB) :
    valueLoop th l = true ↔ ∃ x ∈ l, (th : TS) < (ofLex x).1 ∧ (ofLex x).2 = true := by
  induction l with
  | nil => simp [valueLoop]
  | cons a l ih =>
    simp only [valueLoop]
    by_cases h : (th : TS) < (ofLex a).1 ∧ (ofLex a).2 = true
    · simp [h]
    · simp [h, ih]

/-- C1: each round, `fastest` folds the received neighbour NetStates with the
pointwise timestamp-maximum merge, overwrites its own device's entry with
`(currentTime, localTrigger)`, and returns `true` iff some entry of the merged
NetState has a timestamp strictly greater than
`currentTime - diameterBound/infoSpeed` and value `true`. -/
theorem fastest_three_steps {n : ℕ} (nbrs : List (NetState n)) (uid : Fin n)
    (t : ℚ) (f : Bool) (diameter infospeed : ℚ) :
    (fastest nbrs uid t f diameter infospeed).2
        = netstateUpdate (foldHoodMax nbrs) uid t f ∧
    ((fastest nbrs uid t f diameter infospeed).1 = true ↔
      ∃ d : Fin n,
        ((t - diameter / infospeed : ℚ) : TS)
            < (ofLex ((fastest nbrs uid t f diameter infospeed).2 d)).1 ∧
        (ofLex ((fastest nbrs uid t f diameter infospeed).2 d)).2 = true) := by
  refine ⟨rfl, ?_⟩
  show valueLoop (t - diameter / infospeed)
      ((List.finRange n).map (netstateUpdate (foldHoodMax nbrs) uid t f)) = true ↔ _
  rw [valueLoop_eq_true_iff]
  constructor
  · rintro ⟨x, hx, h1, h2⟩
    obtain ⟨d, -, rfl⟩ := List.mem_map.mp hx
    exact ⟨d, h1, h2⟩
  · rintro ⟨d, h1, h2⟩
    exact ⟨_, List.mem_map.mpr ⟨d, List.mem_finRange d, rfl⟩, h1, h2⟩

/-- C2: the NetState merge is commutative, associative and idempotent, and a
freshly constructed NetState maps every device to `(-INF, false)`. -/
theorem netstate_merge_algebra (n : ℕ) :
    (∀ x y : NetState n, netstateMax x y = netstateMax y x) ∧
    (∀ x y z : NetState n,
      netstateMax (netstateMax x y) z = netstateMax x (netstateMax y z)) ∧
    (∀ x : NetState n, netstateMax x x = x) ∧
    (∀ d : Fin n, netstateNew n d = toLex ((⊥ : TS), false)) :=
  ⟨fun x y => funext fun d => max_comm (x d) (y d),
   fun x y z => funext fun d => max_assoc (x d) (y d) (z d),
   fun x => funext fun d => max_self (x d),
   fun _ => rfl⟩

/-! ## The knowledge-free strategy (lib/somewhere.hpp, lines 64-69) -/

/-- The election key built by `knowledge_free`: `make_tuple(not f, node.uid)`,
with the lexicographic tuple order (any triggered device's key, having first
component `false`, precedes every non-triggered device's key). -/
def electKey (trig : ℕ → Bool) (d : ℕ) : Lex (Bool × ℕ) := toLex (!trig d, d)

/-- Modelled from the spec: `wave_election` (fcpp LeaderElection, not part of
this repository) returns the network-wide minimum key over the connected
component of the calling device.  The component is `insert uid others` — the
calling device `uid` together with the other reachable devices — so it is
never empty. -/
def wave_election (uid : ℕ) (others : Finset ℕ) (trig : ℕ → Bool) : Lex (Bool × ℕ) :=
  ((insert uid others).image (electKey trig)).min'
    ((Finset.insert_nonempty uid others).image (electKey trig))

/-- `somewhere::knowledge_free::operator()`: the negation of the first
component of the elected minimum key. -/
def knowledge_free (uid : ℕ) (others : Finset ℕ) (trig : ℕ → Bool) : Bool :=
  !(ofLex (wave_election uid others trig)).1

/-- C5: `knowledge_free` returns the negation of the first component of the
network-wide minimum election key `(not localTrigger, deviceId)`; keys of
triggered devices precede keys of non-triggered devices (ties broken by id by
the lexicographic order); hence the result is `true` iff some device of the
connected component has `localTrigger = true`. -/
theorem knowledge_free_correct (uid : ℕ) (others : Finset ℕ) (trig : ℕ → Bool) :
    (∀ d e : ℕ, trig d = true → trig e = false → electKey trig d < electKey trig e) ∧
    knowledge_free uid others trig = !(ofLex (wave_election uid others trig)).1 ∧
    (knowledge_free uid others trig = true ↔
      ∃ d ∈ insert uid others, trig d = true) := by
  refine ⟨?_, rfl, ?_⟩
  · intro d e hd he
    unfold electKey
    rw [hd, he]
    exact (Prod.Lex.lt_iff _ _).mpr (Or.inl (show (false : Bool) < true by decide))
  · unfold knowledge_free
    constructor
    · intro h
      have h1 : (ofLex (wave_election uid others trig)).1 = false := by
        cases hb : (ofLex (wave_election uid others trig)).1
        · rfl
        · rw [hb] at h; exact absurd h (by decide)
      have hmem := Finset.min'_mem ((insert uid others).image (electKey trig))
        ((Finset.insert_nonempty uid others).image (electKey trig))
      obtain ⟨d, hd, hkey⟩ := Finset.mem_image.mp hmem
      refine ⟨d, hd, ?_⟩
      unfold wave_election at h1
      rw [← hkey] at h1
      simp only [electKey, ofLex_toLex] at h1
      cases h2 : trig d
      · rw [h2] at h1; exact absurd h1 (by decide)
      · rfl
    · rintro ⟨d, hd, htd⟩
      have hle : wave_election uid others trig ≤ electKey trig d :=
        Finset.min'_le _ _ (Finset.mem_image.mpr ⟨d, hd, rfl⟩)
      have hkd : electKey trig d = toLex (false, d) := by
        unfold electKey; rw [htd]; rfl
      rw [hkd] at hle
      cases hb : (ofLex (wave_election uid others trig)).1
      · rfl
      · exfalso
        have heq : wave_election uid others trig
            = toLex (true, (ofLex (wave_election uid others trig)).2) := by
          rw [← hb]; rfl
        rw [heq] at hle
        rcases (Prod.Lex.le_iff _ _).mp hle with h1 | ⟨h1, -⟩
        · have h2 : (true : Bool) < false := h1
          exact absurd h2 (by decide)
        · have h2 : (true : Bool) = false := h1
          exact absurd h2 (by decide)

/-! ## The replicate combinator (lib/somewhere.hpp, lines 32-39) and the
replicated strategy (lines 72-79) -/

/-- One round of `replicate(CALL, fun, n, t)` after the generation index
`now = shared_clock(CALL) / t` has been computed.  The fcpp `spawn` primitive
is not part of this repository; following the spec, it is modelled by its
observable round outcome: `K` is the set of generation keys of the processes
run this round (the own key `now` is always offered to `spawn`, so `now ∈ K`;
the other keys are neighbour-propagated generations), and `r` maps each key to
the result its process computed this round (the fcpp `PastEventually`
sub-computation).  The body is the source loop: starting from `now`, take the
minimum over the keys whose status flag `i > now - n` holds — `size_t`
subtraction, hence `usub` — and return that process's result. -/
def replicateRound (K : Finset ℕ) (r : ℕ → Bool) (n now : ℕ) : Bool :=
  r ((insert now (K.filter fun i => usub now n < i)).min'
      (Finset.insert_nonempty _ _))

/-- The replica-spawning interval of `somewhere::replicated::operator()`:
`diameter / infospeed / (replicas - 1)` with `size_t` subtraction. -/
def replicaInterval (diameter infospeed : ℚ) (replicas : ℕ) : ℚ :=
  diameter / infospeed / (usub replicas 1 : ℚ)

/-- `size_t now = shared_clock(CALL) / t`: floating-point division truncated
to an unsigned integer, i.e. the floor of `clock / t` for the non-negative
clocks of a simulation. -/
def generationOf (clock t : ℚ) : ℕ := (Int.floor (clock / t)).toNat

/-- One round of `somewhere::replicated::operator()`: run `replicate` on the
`EP` sub-computation with `n = replicas` and `t = replicaInterval`. -/
def replicatedStrategy (K : Finset ℕ) (r : ℕ → Bool) (clock : ℚ)
    (diameter infospeed : ℚ) (replicas : ℕ) : Bool :=
  replicateRound K r replicas
    (generationOf clock (replicaInterval diameter infospeed replicas))

theorem min'_eq_of_min_eq {s : Finset ℕ} {m : ℕ} (hne : s.Nonempty)
    (h : s.min = some m) : s.min' hne = m := by
  have hc := Finset.coe_min' hne
  rw [h] at hc
  exact WithTop.coe_inj.mp hc

/-- C3: each round, `replicated` returns the PastEventually result of the
minimum alive generation among the locally visible generations, a generation
`i` being alive while `i > now - replicas` (so `i ≥ now - replicas + 1`); in
the cold-start rounds (`now < replicas`) the `size_t` subtraction `now - n`
wraps, no generation passes the alive test, and — the spec-modelled spawn
keeping only generations whose alive flag holds, so that the visible set is
`{now}` — the result comes from the oldest (and only) existing generation. -/
theorem replicated_min_alive (K : Finset ℕ) (r : ℕ → Bool) (replicas : ℕ)
    (clock diameter infospeed : ℚ) (now m : ℕ)
    (hgen : generationOf clock (replicaInterval diameter infospeed replicas) = now)
    (hmem : now ∈ K) (hK : ∀ i ∈ K, i < SZ) (h0 : 0 < replicas)
    (hrep : replicas < SZ) :
    (replicas ≤ now →
      (K.filter fun i => now - replicas < i).min = some m →
      replicatedStrategy K r clock diameter infospeed replicas = r m) ∧
    (now < replicas → K = {now} →
      replicatedStrategy K r clock diameter infospeed replicas = r now ∧
      K.min = some now) := by
  unfold replicatedStrategy
  rw [hgen]
  constructor
  · intro hs hmin
    have hnow : now < SZ := hK now hmem
    have husub : usub now replicas = now - replicas := usub_of_le hs hnow
    have hmemf : now ∈ K.filter fun i => now - replicas < i :=
      Finset.mem_filter.mpr ⟨hmem, by omega⟩
    unfold replicateRound
    congr 1
    apply min'_eq_of_min_eq
    rw [husub, Finset.insert_eq_self.mpr hmemf]
    exact hmin
  · intro hc hKeq
    subst hKeq
    have husub : usub now replicas = SZ - (replicas - now) := usub_of_lt hc hrep
    constructor
    · have hfe : ({now} : Finset ℕ).filter (fun i => SZ - (replicas - now) < i) = ∅ := by
        rw [Finset.filter_eq_empty_iff]
        intro i hi
        rw [Finset.mem_singleton] at hi
        subst hi
        simp only [SZ] at *
        omega
      unfold replicateRound
      congr 1
      apply min'_eq_of_min_eq
      rw [husub, hfe]
      simp only [Finset.insert_empty, Finset.min_singleton]
      rfl
    · rw [Finset.min_singleton]
      rfl

/-- C6: `replicated` spawns replicas with interval
`diameter / infospeed / (replicas - 1)`, the generation index at clock `c` is
`floor (c / interval)`, the generation index is monotone in the clock, and
the example values `replicas = 3`, `diameter = 10`, `infospeed = 70` give the
interval `10/70/2 = 1/14`. -/
theorem replicated_interval_props :
    (∀ (K : Finset ℕ) (r : ℕ → Bool) (clock diameter infospeed : ℚ)
        (replicas : ℕ),
      replicatedStrategy K r clock diameter infospeed replicas
        = replicateRound K r replicas
            (generationOf clock (replicaInterval diameter infospeed replicas))) ∧
    (∀ (diameter infospeed : ℚ) (replicas : ℕ), 1 ≤ replicas → replicas < SZ →
      replicaInterval diameter infospeed replicas
        = diameter / infospeed / ((replicas : ℚ) - 1)) ∧
    (∀ clock t : ℚ, 0 ≤ clock → 0 < t →
      (generationOf clock t : ℤ) = Int.floor (clock / t)) ∧
    (∀ c c' t : ℚ, 0 < t → c ≤ c' → generationOf c t ≤ generationOf c' t) ∧
    replicaInterval 10 70 3 = 1 / 14 := by
  refine ⟨fun _ _ _ _ _ _ => rfl, ?_, ?_, ?_, ?_⟩
  · intro diameter infospeed replicas h1 hk
    unfold replicaInterval
    rw [usub_of_le h1 hk, Nat.cast_sub h1, Nat.cast_one]
  · intro clock t hc ht
    unfold generationOf
    rw [Int.toNat_of_nonneg]
    exact Int.floor_nonneg.mpr (div_nonneg hc ht.le)
  · intro c c' t ht hcc
    unfold generationOf
    exact Int.toNat_le_toNat (Int.floor_le_floor ((div_le_div_iff_of_pos_right ht).mpr hcc))
  · have h31 : usub 3 1 = 2 := by simp only [usub, SZ]; norm_num
    unfold replicaInterval
    rw [h31]
    norm_num

/-! ## Driver configuration (lib/setup.hpp MAIN, batch.cpp, graphic.cpp) -/

/-- `int replicas = 3` in MAIN (lib/setup.hpp). -/
def mainReplicas : ℕ := 3

/-- `real_t infospeed = 70` in MAIN (lib/setup.hpp). -/
def mainInfospeed : ℚ := 70

/-- The hop values of the batch driver: `batch::arithmetic<hops>(1, 25, 1, 10)`
generates the integers 1 through 25 (MAIN reads `diameter` from this value). -/
def batchHops : List ℕ := (List.range 25).map (fun i => i + 1)

/-- The hop value of the graphic driver (graphic.cpp initialisation tuple). -/
def graphicHops : ℕ := 10

/-- C4 counterexample: a `replicated` call with `replicaCount = 1` is not
rejected anywhere — the code contains no configuration validation — and it
does not abort either: the replica interval `diameter/infospeed/(1-1)`
becomes a division by zero (IEEE `+inf` in the C++ float, the junk value `0`
in the ℚ embedding), in both cases the truncated generation index
`clock / interval` collapses to `0`, and the strategy completes normally,
returning the result of generation `0`. -/
theorem replicated_one_not_rejected :
    replicatedStrategy {0} (fun _ => false) 5 10 70 1 = false := by
  decide

/-- C4 amended: no configuration-time validation exists in the code; instead,
the drivers hard-code valid parameters — `replicas = 3 ≥ 2`,
`infospeed = 70 > 0`, every batch hop count (hence the diameter bound) is at
least 1, and so is the graphic driver's — so the invalid cases never arise in
any simulation the repository can start. -/
theorem driver_params_valid :
    2 ≤ mainReplicas ∧ 0 < mainInfospeed ∧
    batchHops.all (fun h => decide (1 ≤ h)) = true ∧ 1 ≤ graphicHops := by
  refine ⟨by norm_num [mainReplicas], by norm_num [mainInfospeed], by decide,
    by norm_num [graphicHops]⟩

/-! ## The oracle strategy (lib/somewhere.hpp, lines 48-53) -/

/-- `somewhere::oracle::operator()`: ignore the formula argument, return the
externally supplied ground-truth value. -/
def oracle (_f val : Bool) : Bool := val

/-- `somewhere::oracle::export_t = export_list<>`: the list of types the
oracle exports in messages — empty, so the strategy communicates nothing. -/
def oracleExports : List String := []

/-- C7: the oracle returns the externally supplied ground-truth boolean
unchanged (identity law) and communicates nothing: its export list is empty. -/
theorem oracle_identity :
    (∀ f val : Bool, oracle f val = val) ∧ oracleExports = [] :=
  ⟨fun _ _ => rfl, rfl⟩

/-! ## The reporter and the MAIN round (lib/setup.hpp, lines 76-83 and
107-111 of the concatenated sources) -/

/-- The five strategy identities used as storage tags. -/
inductive Strat where
  | oracle
  | baseline
  | kfree
  | replicated
  | fastest
deriving DecidableEq

/-- The per-device node storage touched by the reporters: for each strategy
tag, the fields `value<F>`, `error<F>` and `msg_size<F>`. -/
structure Storage where
  value : Strat → Bool
  error : Strat → Bool
  msgSize : Strat → ℕ

/-- `reporter(CALL, fun, xs...)`: read the message-byte counter (`m0`), invoke
the strategy once (its boolean result is `funVal`, the counter afterwards is
`m1`), then store under the strategy's tag its value, the `size_t` byte delta
`m1 - m0`, and the error flag comparing the freshly stored value against the
stored oracle value. -/
def reporter (st : Storage) (F : Strat) (funVal : Bool) (m0 m1 : ℕ) : Storage :=
  let v := Function.update st.value F funVal
  { value := v
    error := Function.update st.error F (v F != v Strat.oracle)
    msgSize := Function.update st.msgSize F (usub m1 m0) }

/-- The five reporter calls of MAIN, in source order: oracle first, then
baseline, knowledge_free, replicated, fastest.  `vO..vF` are the strategies'
round results and `m0..m5` the message-byte counter at the six instants
separating the calls. -/
def mainRound (st : Storage) (vO vB vK vR vF : Bool)
    (m0 m1 m2 m3 m4 m5 : ℕ) : Storage :=
  let s1 := reporter st Strat.oracle vO m0 m1
  let s2 := reporter s1 Strat.baseline vB m1 m2
  let s3 := reporter s2 Strat.kfree vK m2 m3
  let s4 := reporter s3 Strat.replicated vR m3 m4
  reporter s4 Strat.fastest vF m4 m5

/-- C8: a reporter call stores the strategy's boolean value, the error flag
comparing it with the stored oracle value, and the outbound byte delta around
the invocation; with a monotonic counter that never overflows, the stored
delta is the exact difference `m1 - m0`, hence non-negative. -/
theorem reporter_stores (st : Storage) (F : Strat) (funVal : Bool) (m0 m1 : ℕ)
    (hmono : m0 ≤ m1) (hsz : m1 < SZ) :
    (reporter st F funVal m0 m1).value F = funVal ∧
    (reporter st F funVal m0 m1).error F
      = ((reporter st F funVal m0 m1).value F
          != (reporter st F funVal m0 m1).value Strat.oracle) ∧
    (reporter st F funVal m0 m1).msgSize F = m1 - m0 ∧
    0 ≤ (m1 : ℤ) - (m0 : ℤ) := by
  refine ⟨?_, ?_, ?_, by omega⟩
  · show Function.update st.value F funVal F = funVal
    exact Function.update_same F funVal st.value
  · show Function.update st.error F _ F = _
    rw [Function.update_same]
    rfl
  · show Function.update st.msgSize F (usub m1 m0) F = m1 - m0
    rw [Function.update_same, usub_of_le hmono hsz]

/-- C9: a reporter call for strategy `F` writes only `F`'s storage fields —
every other strategy's stored value, error and message size are unchanged —
and in the MAIN round each strategy's stored value is its own result,
whatever the other strategies computed. -/
theorem reporter_frame_independent :
    (∀ (st : Storage) (F : Strat) (funVal : Bool) (m0 m1 : ℕ) (G : Strat),
      G ≠ F →
      (reporter st F funVal m0 m1).value G = st.value G ∧
      (reporter st F funVal m0 m1).error G = st.error G ∧
      (reporter st F funVal m0 m1).msgSize G = st.msgSize G) ∧
    (∀ (st : Storage) (vO vB vK vR vF : Bool) (m0 m1 m2 m3 m4 m5 : ℕ),
      (mainRound st vO vB vK vR vF m0 m1 m2 m3 m4 m5).value Strat.oracle = vO ∧
      (mainRound st vO vB vK vR vF m0 m1 m2 m3 m4 m5).value Strat.baseline = vB ∧
      (mainRound st vO vB vK vR vF m0 m1 m2 m3 m4 m5).value Strat.kfree = vK ∧
      (mainRound st vO vB vK vR vF m0 m1 m2 m3 m4 m5).value Strat.replicated = vR ∧
      (mainRound st vO vB vK vR vF m0 m1 m2 m3 m4 m5).value Strat.fastest = vF) := by
  constructor
  · intro st F funVal m0 m1 G hG
    exact ⟨Function.update_noteq hG _ _, Function.update_noteq hG _ _,
      Function.update_noteq hG _ _⟩
  · intro st vO vB vK vR vF m0 m1 m2 m3 m4 m5
    exact ⟨rfl, rfl, rfl, rfl, rfl⟩

/-- C10: the stored error flag of the oracle strategy is always false: MAIN
reports the oracle before every other strategy, so its reporter compares the
oracle's freshly stored value with itself, and the later reporter calls do
not touch the oracle's error field. -/
theorem oracle_error_never (st : Storage) (vO vB vK vR vF : Bool)
    (m0 m1 m2 m3 m4 m5 : ℕ) :
    (mainRound st vO vB vK vR vF m0 m1 m2 m3 m4 m5).error Strat.oracle = false := by
  show (vO != vO) = false
  exact bne_self_eq_false vO

/-! ## Witnesses -/

/-- Witness for C3: a steady-state round with visible generations `{5, 6, 7}`,
`replicas = 3` and clock `1/2` (so the current generation is `7` and the
alive ones are exactly `{5, 6, 7}`) reports the result of generation `5`. -/
theorem replicated_min_alive_witness :
    replicatedStrategy {5, 6, 7} (fun i => decide (i = 5)) (1/2) 10 70 3 = true :=
  (replicated_min_alive {5, 6, 7} (fun i => decide (i = 5)) 3 (1/2) 10 70 7 5
      (by
        have h : usub 3 1 = 2 := by simp only [usub, SZ]; norm_num
        unfold generationOf replicaInterval
        rw [h]
        norm_num
        decide)
      (by decide) (by decide) (by decide) (by decide)).1
    (by decide) (by decide)

/-- Witness for C5: in the component `{0, 1}` where only device 1 is
triggered, device 1's key precedes device 0's and `knowledge_free` answers
`true`. -/
theorem knowledge_free_correct_witness :
    electKey (fun d => decide (d = 1)) 1 < electKey (fun d => decide (d = 1)) 0 ∧
    knowledge_free 0 {1} (fun d => decide (d = 1)) = true :=
  ⟨(knowledge_free_correct 0 {1} (fun d => decide (d = 1))).1 1 0 (by decide)
      (by decide),
   ((knowledge_free_correct 0 {1} (fun d => decide (d = 1))).2.2).mpr
      ⟨1, by decide, by decide⟩⟩

/-- Witness for C6: the generation index is monotone between the clocks `1/2`
and `3/4` at the example interval, and the example interval is `1/14`. -/
theorem replicated_interval_props_witness :
    generationOf (1/2) (1/14) ≤ generationOf (3/4) (1/14) ∧
    replicaInterval 10 70 3 = 1 / 14 :=
  ⟨replicated_interval_props.2.2.2.1 (1/2) (3/4) (1/14) (by norm_num)
      (by norm_num),
   replicated_interval_props.2.2.2.2⟩

/-- The all-false, all-zero node storage, used as a concrete starting state. -/
def stZero : Storage := ⟨fun _ => false, fun _ => false, fun _ => 0⟩

/-- Witness for C8: a reporter call for the baseline strategy with result
`true` and counter readings 2 and 5 stores that value, the oracle-compared
error flag, and the byte delta 3. -/
theorem reporter_stores_witness :
    (reporter stZero Strat.baseline true 2 5).value Strat.baseline = true ∧
    (reporter stZero Strat.baseline true 2 5).error Strat.baseline
      = ((reporter stZero Strat.baseline true 2 5).value Strat.baseline
          != (reporter stZero Strat.baseline true 2 5).value Strat.oracle) ∧
    (reporter stZero Strat.baseline true 2 5).msgSize Strat.baseline = 5 - 2 ∧
    0 ≤ (5 : ℤ) - (2 : ℤ) :=
  reporter_stores stZero Strat.baseline true 2 5 (by norm_num) (by norm_num [SZ])

/-- Witness for C9: the baseline reporter call leaves the oracle's stored
value, error and message size untouched. -/
theorem reporter_frame_witness :
    (reporter stZero Strat.baseline true 2 5).value Strat.oracle
        = stZero.value Strat.oracle ∧
    (reporter stZero Strat.baseline true 2 5).error Strat.oracle
        = stZero.error Strat.oracle ∧
    (reporter stZero Strat.baseline true 2 5).msgSize Strat.oracle
        = stZero.msgSize Strat.oracle :=
  reporter_frame_independent.1 stZero Strat.baseline true 2 5 Strat.oracle
    (by decide)
